import Mathlib

/-!
Verification of the lazyaws interactive state machine and filter engine.

The definitions below are a shallow embedding of `src/main.go`: the
`model` record, `initialModel`, `model.Update` (the Bubble Tea event
reducer) and the instance-filtering logic of `model.renderEC2`.
Asynchronous commands returned by `Update` are represented symbolically
by the `Cmd` inductive; incoming Bubble Tea messages by `Msg`.
-/

namespace LazyAws

/-- A key/value tag attached to an instance (`aws.Instance.Tags`). -/
structure Tag where
  Key : String
  Value : String
deriving DecidableEq

/-- One EC2 instance snapshot (`aws.Instance`). -/
structure Instance where
  ID : String
  Name : String
  State : String
  InstanceType : String
  PublicIP : String
  PrivateIP : String
  Tags : List Tag
deriving DecidableEq

/-- The three screens (`ec2Screen`, `s3Screen`, `eksScreen` from main.go). -/
inductive Screen where
  | ec2Screen
  | s3Screen
  | eksScreen
deriving DecidableEq

/-- Go: `(m.currentScreen + 1) % 3`, the `tab` key cycling. -/
def Screen.next : Screen → Screen
  | .ec2Screen => .s3Screen
  | .s3Screen => .eksScreen
  | .eksScreen => .ec2Screen

/-- The configuration (`config.Config`): selected region and region list. -/
structure Config where
  Region : String
  Regions : List String
deriving DecidableEq

/-- Keyboard keys, identified the way `tea.KeyMsg.String()` names them:
`char c` is a rune key whose string form is the character itself; the
others are the named special keys dispatched on in `model.Update`. -/
inductive Key where
  | enter
  | esc
  | backspace
  | tab
  | ctrlC
  | char (c : Char)
deriving DecidableEq

/-- Incoming Bubble Tea messages handled by `model.Update`:
`clientReady` is the `*aws.Client` message produced by `initAWSClient`,
`instancesLoaded` is `instancesLoadedMsg` (a Go `error` is `Option String`,
`none` meaning nil), `key` is `tea.KeyMsg`, `windowSize` is
`tea.WindowSizeMsg`. -/
inductive Msg where
  | clientReady
  | instancesLoaded (instances : List Instance) (err : Option String)
  | key (k : Key)
  | windowSize (w h : Int)
deriving DecidableEq

/-- The asynchronous commands (`tea.Cmd`) the reducer can request:
`initAWSClient`, `loadEC2Instances`, and `tea.Quit`. -/
inductive Cmd where
  | initAWSClient
  | loadEC2Instances
  | quit
deriving DecidableEq

/-- Modelled from the spec: the text-input sub-state is the
`textinput.Model` collaborator from the charmbracelet/bubbles library,
which is not part of this repository. Per the spec it provides
"standard line-edit semantics: insert, backspace"; `initialModel` in
main.go configures it with `CharLimit = 20`. We model the buffer and the
character limit: a rune key appends to the buffer unless a positive
`charLimit` is already reached (in which case the keystroke is
rejected), backspace deletes the last character, and every other
message leaves the buffer unchanged. The cursor is always at the end of
the buffer; cursor movement is not modelled. -/
structure TextInput where
  value : String
  charLimit : Nat
deriving DecidableEq

/-- Modelled from the spec: `textinput.Model.Update` restricted to the
buffer and character limit, as described on `TextInput`. -/
def TextInput.update (ti : TextInput) (msg : Msg) : TextInput :=
  match msg with
  | .key (.char c) =>
      if 0 < ti.charLimit ∧ ti.charLimit ≤ ti.value.length then ti
      else { ti with value := ti.value.push c }
  | .key .backspace => { ti with value := String.mk ti.value.data.dropLast }
  | _ => ti

/-- The `model` struct of main.go. `awsClient` is the nilable client
handle (its contents are opaque to the state machine), `err` is the Go
`error` field (`none` = nil), `filter` is the committed filter text and
`filtering` the filter-editing flag. -/
structure Model where
  currentScreen : Screen
  width : Int
  height : Int
  awsClient : Option Unit
  ec2Instances : List Instance
  loading : Bool
  err : Option String
  config : Config
  filterInput : TextInput
  filtering : Bool
  filter : String
deriving DecidableEq

/-- `initialModel` from main.go: EC2 screen, loading, text input with
`CharLimit = 20`, not filtering; remaining fields are Go zero values. -/
def initialModel (cfg : Config) : Model :=
  { currentScreen := .ec2Screen
    width := 0
    height := 0
    awsClient := none
    ec2Instances := []
    loading := true
    err := none
    config := cfg
    filterInput := { value := "", charLimit := 20 }
    filtering := false
    filter := "" }

/-- The `case "c"` branch of `model.Update`: find the index of the
current region in `config.Regions` (first match); if found, move to the
next region cyclically, set loading and re-init the client; otherwise
leave the model unchanged. -/
def cycleRegion (m : Model) : Model × Option Cmd :=
  match m.config.Regions.indexOf? m.config.Region with
  | some i =>
      ({ m with
          config := { m.config with
            Region := m.config.Regions.getD ((i + 1) % m.config.Regions.length) "" }
          loading := true }, some .initAWSClient)
  | none => (m, none)

/-- `model.Update` from main.go. While `filtering` is set, only the
`enter` and `esc` keys are intercepted (commit resp. discard); every
other message — key or not — is forwarded to `filterInput.Update`.
Otherwise the message is dispatched as in the Go switch: the
`*aws.Client` message stores the client and requests a load; an
`instancesLoadedMsg` clears `loading`, stores the error, and replaces
`ec2Instances` only when the error is nil; key messages drive
navigation, refresh, region cycling, filter entry and quit; a window
size message records the dimensions. -/
def update (m : Model) (msg : Msg) : Model × Option Cmd :=
  if m.filtering then
    match msg with
    | .key .enter => ({ m with filter := m.filterInput.value, filtering := false }, none)
    | .key .esc => ({ m with filtering := false }, none)
    | _ => ({ m with filterInput := m.filterInput.update msg }, none)
  else
    match msg with
    | .clientReady => ({ m with awsClient := some () }, some .loadEC2Instances)
    | .instancesLoaded insts e =>
        ({ m with
            loading := false
            err := e
            ec2Instances := match e with | none => insts | some _ => m.ec2Instances }, none)
    | .key .ctrlC => (m, some .quit)
    | .key (.char 'q') => (m, some .quit)
    | .key (.char '1') => ({ m with currentScreen := .ec2Screen }, none)
    | .key (.char '2') => ({ m with currentScreen := .s3Screen }, none)
    | .key (.char '3') => ({ m with currentScreen := .eksScreen }, none)
    | .key (.char 'c') => cycleRegion m
    | .key .tab => ({ m with currentScreen := m.currentScreen.next }, none)
    | .key (.char 'r') =>
        match m.currentScreen with
        | .ec2Screen => ({ m with loading := true }, some .loadEC2Instances)
        | _ => (m, none)
    | .key (.char 'f') => ({ m with filtering := true }, none)
    | .key _ => (m, none)
    | .windowSize w h => ({ m with width := w, height := h }, none)

/-- The state part of one `update` step. -/
def step (m : Model) (msg : Msg) : Model :=
  (update m msg).1

/-- Process a sequence of messages in arrival order. -/
def run (m : Model) (msgs : List Msg) : Model :=
  msgs.foldl step m

/-- States reachable from `initialModel cfg` by some message sequence. -/
def Reachable (cfg : Config) (m : Model) : Prop :=
  ∃ msgs : List Msg, run (initialModel cfg) msgs = m

/-- The spec's tri-state load status, reconstructed from the `loading`
and `err` fields exactly as `renderEC2` branches on them. -/
inductive LoadStatus where
  | loading
  | ready
  | failed (err : String)
deriving DecidableEq

/-- `renderEC2` shows the loading banner when `loading` is set, the
error banner when `err` is non-nil, and the table otherwise. -/
def loadStatus (m : Model) : LoadStatus :=
  if m.loading then .loading
  else
    match m.err with
    | some e => .failed e
    | none => .ready

/-- Go `strings.ToLower`, on the character list of a string. -/
def toLowerStr (s : String) : String :=
  String.mk (s.data.map Char.toLower)

/-- Does `s` start with `pat`? (helper for `containsL`). -/
def startsWithL : List Char → List Char → Bool
  | _, [] => true
  | [], _ :: _ => false
  | c :: cs, p :: ps => c == p && startsWithL cs ps

/-- Go `strings.Contains(s, pat)` on character lists: `pat` occurs as a
contiguous substring of `s`. -/
def containsL (pat : List Char) : List Char → Bool
  | [] => pat.isEmpty
  | c :: cs => startsWithL (c :: cs) pat || containsL pat cs

/-- Go `strings.Contains(s, sub)`. -/
def strContainsSub (s sub : String) : Bool :=
  containsL sub.data s.data

/-- Go `strings.SplitN(s, "=", 2)`: the part before the first `=` and
the part after it (the whole string and `""` when there is no `=`). -/
def splitEqL : List Char → List Char × List Char
  | [] => ([], [])
  | c :: cs =>
      if c = '=' then ([], cs)
      else
        let p := splitEqL cs
        (c :: p.1, p.2)

/-- The per-tag test of the tag-filter loop in `renderEC2`:
`tag.Key == tagKey && strings.Contains(strings.ToLower(tag.Value),
strings.ToLower(tagValue))`. -/
def matchesTag (tagKey tagValue : String) (t : Tag) : Bool :=
  t.Key == tagKey && strContainsSub (toLowerStr t.Value) (toLowerStr tagValue)

/-- The instance-filtering block of `model.renderEC2` (lines 244-267 of
main.go), as a pure function of the instance list and the committed
filter text. An empty filter keeps everything; a filter containing `=`
is split at the first `=` into a tag key and value and keeps the
instances with a matching tag (the Go loop appends the instance and
breaks at the first matching tag); any other filter keeps the instances
whose state contains the filter case-insensitively. -/
def filterInstances (instances : List Instance) (filter : String) : List Instance :=
  if filter = "" then instances
  else if filter.data.contains '=' then
    let p := splitEqL filter.data
    let tagKey := String.mk p.1
    let tagValue := String.mk p.2
    instances.filter (fun inst => inst.Tags.any (matchesTag tagKey tagValue))
  else
    instances.filter (fun inst =>
      strContainsSub (toLowerStr inst.State) (toLowerStr filter))

/-- The tag key the spec assigns to a tag filter: the substring of the
filter text before the first `=`. -/
def specTagKey (filter : String) : String :=
  String.mk (filter.data.takeWhile (fun c => c ≠ '='))

/-- The tag-value pattern the spec assigns to a tag filter: the
substring of the filter text after the first `=`. -/
def specTagValue (filter : String) : String :=
  String.mk ((filter.data.dropWhile (fun c => c ≠ '=')).drop 1)

/-! ### Bridge lemmas for the string helpers -/

theorem startsWithL_iff (s pat : List Char) :
    startsWithL s pat = true ↔ pat <+: s := by
  induction pat generalizing s with
  | nil => simp [startsWithL]
  | cons p ps ih =>
    cases s with
    | nil => simp [startsWithL]
    | cons c cs =>
      have hdef : startsWithL (c :: cs) (p :: ps) = (c == p && startsWithL cs ps) := rfl
      rw [hdef, List.cons_prefix_cons, Bool.and_eq_true, beq_iff_eq, ih]
      exact and_congr_left (fun _ => eq_comm)

theorem containsL_iff (pat s : List Char) :
    containsL pat s = true ↔ pat <:+: s := by
  induction s with
  | nil => simp [containsL, List.isEmpty_iff]
  | cons c cs ih =>
    simp [containsL, startsWithL_iff, ih, List.infix_cons_iff]

theorem strContainsSub_iff (s sub : String) :
    strContainsSub s sub = true ↔ sub.data <:+: s.data := by
  simp [strContainsSub, containsL_iff]

theorem splitEqL_eq (l : List Char) :
    splitEqL l =
      (l.takeWhile (fun c => c ≠ '='), (l.dropWhile (fun c => c ≠ '=')).drop 1) := by
  induction l with
  | nil => rfl
  | cons c cs ih =>
    by_cases h : c = '='
    · simp [splitEqL, h, List.takeWhile_cons, List.dropWhile_cons]
    · simp [splitEqL, h, List.takeWhile_cons, List.dropWhile_cons, ih]

/-! ### Concrete fixtures used by witnesses and counterexamples -/

/-- A one-region demo configuration. -/
def cfg0 : Config :=
  { Region := "us-east-1", Regions := ["us-east-1"] }

/-- The three-region configuration of the region-cycling example, with
the last region selected. -/
def cfg1 : Config :=
  { Region := "eu-west-1", Regions := ["us-east-1", "us-west-2", "eu-west-1"] }

/-- A demo instance carrying the tag `Env = Prod`. -/
def inst1 : Instance :=
  { ID := "i-1", Name := "web", State := "Running", InstanceType := "t2.micro",
    PublicIP := "", PrivateIP := "", Tags := [{ Key := "Env", Value := "Prod" }] }

/-- A demo instance carrying the tag `env = dev`. -/
def inst2 : Instance :=
  { ID := "i-2", Name := "db", State := "stopped", InstanceType := "t3.micro",
    PublicIP := "", PrivateIP := "", Tags := [{ Key := "env", Value := "dev" }] }

/-! ### Claims about the filter engine -/

/-- C5: for every instance list, filtering with the empty filter text
returns the input list unchanged, in the same order (identity law). -/
theorem C5_filter_empty_identity (instances : List Instance) :
    filterInstances instances "" = instances := by
  simp [filterInstances]

/-- C4: for every instance list and every non-empty filter text with no
`=`, the filter keeps exactly the instances whose state contains the
filter text as a case-insensitive substring; the filtering predicate
consults no field of the instance other than `State`. -/
theorem C4_state_filter (instances : List Instance) (ft : String)
    (h1 : ft ≠ "") (h2 : '=' ∉ ft.data) :
    filterInstances instances ft =
      instances.filter (fun inst =>
        decide ((toLowerStr ft).data <:+: (toLowerStr inst.State).data)) := by
  unfold filterInstances
  rw [if_neg h1, if_neg (by simpa using h2)]
  apply List.filter_congr
  intro inst _
  rw [Bool.eq_iff_iff]
  simp [strContainsSub_iff]

/-- C4 witness: the spec example, instance state `"Running"` matched by
filter `"run"`. -/
theorem C4_state_filter_witness :
    ("run" : String) ≠ "" ∧ '=' ∉ ("run" : String).data ∧
    filterInstances [inst1, inst2] "run" =
      [inst1, inst2].filter (fun inst =>
        decide ((toLowerStr "run").data <:+: (toLowerStr inst.State).data)) :=
  ⟨by decide, by decide, C4_state_filter [inst1, inst2] "run" (by decide) (by decide)⟩

/-- C3: for every instance list and every filter text containing `=`,
the filter keeps exactly the instances having at least one tag whose
key equals the substring before the first `=` (exact, case-sensitive)
and whose value contains the substring after the first `=`
case-insensitively; only the first `=` splits key from value. -/
theorem C3_tag_filter (instances : List Instance) (ft : String)
    (h : '=' ∈ ft.data) :
    filterInstances instances ft =
      instances.filter (fun inst =>
        decide (∃ t ∈ inst.Tags, t.Key = specTagKey ft ∧
          (toLowerStr (specTagValue ft)).data <:+: (toLowerStr t.Value).data)) := by
  have hne : ft ≠ "" := by
    intro he
    rw [he] at h
    simp at h
  unfold filterInstances
  rw [if_neg hne, if_pos (by simpa using h), splitEqL_eq]
  apply List.filter_congr
  intro inst _
  rw [Bool.eq_iff_iff]
  simp [List.any_eq_true, matchesTag, strContainsSub_iff, specTagKey, specTagValue]

/-- C3 witness: the spec example, instances tagged `Env=Prod` and
`env=dev` filtered by `"Env=prod"`. -/
theorem C3_tag_filter_witness :
    '=' ∈ ("Env=prod" : String).data ∧
    filterInstances [inst1, inst2] "Env=prod" =
      [inst1, inst2].filter (fun inst =>
        decide (∃ t ∈ inst.Tags, t.Key = specTagKey "Env=prod" ∧
          (toLowerStr (specTagValue "Env=prod")).data <:+: (toLowerStr t.Value).data)) :=
  ⟨by decide, C3_tag_filter [inst1, inst2] "Env=prod" (by decide)⟩

/-! ### Load-completion handling -/

/-- One `instancesLoadedMsg` handled outside filter-editing mode:
`loading` is cleared, the error stored, and the instance list replaced
only on success. -/
theorem step_instancesLoaded (m : Model) (hf : m.filtering = false)
    (insts : List Instance) (e : Option String) :
    step m (.instancesLoaded insts e) =
      { m with
          loading := false
          err := e
          ec2Instances := match e with | none => insts | some _ => m.ec2Instances } := by
  simp [step, update, hf]

/-- Process a list of load-completion events (result, error) in arrival
order. -/
def applyLoads (m : Model) (es : List (List Instance × Option String)) : Model :=
  run m (es.map fun e => Msg.instancesLoaded e.1 e.2)

/-- C1 (amended): load-completion events arriving while the application
is not in filter-editing mode are each applied on arrival, in arrival
order: afterwards the stored error is the error of the last completion,
`loading` is cleared as soon as one completion has arrived, and the
instance list is the left fold that replaces it at every successful
completion — so the last completion to arrive determines the final
`instances` and `loadStatus`. -/
theorem C1_loads_applied_in_order (m : Model) (hf : m.filtering = false)
    (es : List (List Instance × Option String)) :
    (applyLoads m es).filtering = false ∧
    (applyLoads m es).loading = (if es = [] then m.loading else false) ∧
    (applyLoads m es).err = (es.map Prod.snd).getLastD m.err ∧
    (applyLoads m es).ec2Instances =
      es.foldl (fun acc e => match e.2 with | none => e.1 | some _ => acc)
        m.ec2Instances := by
  induction es generalizing m with
  | nil => exact ⟨hf, by simp [applyLoads, run], rfl, rfl⟩
  | cons e rest ih =>
    have hm : applyLoads m (e :: rest) =
        applyLoads (step m (.instancesLoaded e.1 e.2)) rest := rfl
    have hstep := step_instancesLoaded m hf e.1 e.2
    have hf2 : (step m (.instancesLoaded e.1 e.2)).filtering = false := by
      rw [hstep]
      exact hf
    have h := ih (step m (.instancesLoaded e.1 e.2)) hf2
    rw [hm]
    refine ⟨h.1, ?_, ?_, ?_⟩
    · rw [h.2.1, hstep]
      simp
    · rw [h.2.2.1, hstep, List.map_cons, List.getLastD_cons]
    · rw [h.2.2.2, hstep]
      rfl

/-- C1 witness: two completions applied in order from the initial state
— a success followed by a stale error; the error (the last arrival)
determines the final status while the earlier result is retained. -/
theorem C1_loads_applied_in_order_witness :
    (initialModel cfg0).filtering = false ∧
    (applyLoads (initialModel cfg0) [([inst1], none), ([], some "boom")]).err = some "boom" ∧
    (applyLoads (initialModel cfg0) [([inst1], none), ([], some "boom")]).loading = false ∧
    (applyLoads (initialModel cfg0) [([inst1], none), ([], some "boom")]).ec2Instances = [inst1] := by
  have h := C1_loads_applied_in_order (initialModel cfg0) rfl [([inst1], none), ([], some "boom")]
  exact ⟨rfl, by simpa using h.2.2.1, by simpa using h.2.1, by simpa using h.2.2.2⟩

/-- C1 counterexample: in the reachable state obtained by pressing `f`
from the initial state, a load-completion event carrying an error is
routed to the filter text input instead of the load handler: the error
is silently dropped and `loading` stays set. -/
theorem C1_counterexample :
    (run (initialModel cfg0) [Msg.key (Key.char 'f'),
      Msg.instancesLoaded [] (some "boom")]).err = none ∧
    (run (initialModel cfg0) [Msg.key (Key.char 'f'),
      Msg.instancesLoaded [] (some "boom")]).loading = true := by
  decide

/-- C2: from a non-filter-editing state with load status Loading, a
successful completion transitions to Ready with the result stored, and
an error completion transitions to Failed with the error retained and
the instance list left at its previous value. -/
theorem C2_load_completion (m : Model) (hf : m.filtering = false)
    (_hl : loadStatus m = .loading) (insts : List Instance) (e : String) :
    loadStatus (step m (.instancesLoaded insts none)) = .ready ∧
    (step m (.instancesLoaded insts none)).ec2Instances = insts ∧
    loadStatus (step m (.instancesLoaded insts (some e))) = .failed e ∧
    (step m (.instancesLoaded insts (some e))).ec2Instances = m.ec2Instances := by
  rw [step_instancesLoaded m hf insts none, step_instancesLoaded m hf insts (some e)]
  exact ⟨rfl, rfl, rfl, rfl⟩

/-- C2 witness: the initial state is Loading and not filter-editing;
completions behave as stated there. -/
theorem C2_load_completion_witness :
    (initialModel cfg0).filtering = false ∧
    loadStatus (initialModel cfg0) = .loading ∧
    loadStatus (step (initialModel cfg0) (.instancesLoaded [inst1] none)) = .ready ∧
    (step (initialModel cfg0) (.instancesLoaded [inst1] none)).ec2Instances = [inst1] ∧
    loadStatus (step (initialModel cfg0) (.instancesLoaded [inst1] (some "boom"))) = .failed "boom" ∧
    (step (initialModel cfg0) (.instancesLoaded [inst1] (some "boom"))).ec2Instances =
      (initialModel cfg0).ec2Instances := by
  have h := C2_load_completion (initialModel cfg0) rfl rfl [inst1] "boom"
  exact ⟨rfl, rfl, h.1, h.2.1, h.2.2.1, h.2.2.2⟩

/-! ### Region cycling, filter entry, quit -/

/-- C6: outside filter-editing, pressing `c` moves the region to
`Regions[(i + 1) % len]` where `i` is the index of the current region,
sets `loading`, and requests the asynchronous client re-init (whose
completion message in turn requests the load); when the current region
does not occur in the region list, the state and command are left
entirely unchanged. -/
theorem C6_region_cycle (m : Model) (hf : m.filtering = false) :
    (∀ i, m.config.Regions.indexOf? m.config.Region = some i →
      update m (.key (.char 'c')) =
        ({ m with
            config := { m.config with
              Region := m.config.Regions.getD ((i + 1) % m.config.Regions.length) "" }
            loading := true }, some .initAWSClient) ∧
      (i + 1) % m.config.Regions.length < m.config.Regions.length) ∧
    (m.config.Regions.indexOf? m.config.Region = none →
      update m (.key (.char 'c')) = (m, none)) ∧
    update m .clientReady = ({ m with awsClient := some () }, some .loadEC2Instances) := by
  have hu : update m (.key (.char 'c')) = cycleRegion m := by
    simp [update, hf]
  refine ⟨fun i hi => ⟨?_, ?_⟩, fun hnone => ?_, ?_⟩
  · rw [hu]
    simp [cycleRegion, hi]
  · have hnil : m.config.Regions ≠ [] := by
      intro hregs
      rw [hregs] at hi
      simp [List.indexOf?] at hi
    exact Nat.mod_lt _ (List.length_pos.mpr hnil)
  · rw [hu]
    simp [cycleRegion, hnone]
  · simp [update, hf]

/-- C6 witness: the spec example, regions
`["us-east-1", "us-west-2", "eu-west-1"]` with `"eu-west-1"` selected;
pressing `c` wraps around to `"us-east-1"`. -/
theorem C6_region_cycle_witness :
    (initialModel cfg1).filtering = false ∧
    (initialModel cfg1).config.Regions.indexOf? (initialModel cfg1).config.Region = some 2 ∧
    (update (initialModel cfg1) (.key (.char 'c'))).1.config.Region = "us-east-1" ∧
    (update (initialModel cfg1) (.key (.char 'c'))).1.loading = true ∧
    (update (initialModel cfg1) (.key (.char 'c'))).2 = some Cmd.initAWSClient := by
  have h := ((C6_region_cycle (initialModel cfg1) rfl).1 2 (by decide)).1
  refine ⟨rfl, by decide, ?_, ?_, ?_⟩ <;> (rw [h]; try rfl)

/-- C7 counterexample: from the initial state, pressing `2` (switch to
the object-storage screen) and then `f` reaches a state with
`filtering = true` while the screen is not Compute — the `f` handler
has no screen precondition, so the claimed invariant fails. -/
theorem C7_counterexample :
    (run (initialModel cfg0) [Msg.key (Key.char '2'), Msg.key (Key.char 'f')]).filtering = true ∧
    (run (initialModel cfg0) [Msg.key (Key.char '2'), Msg.key (Key.char 'f')]).currentScreen =
      Screen.s3Screen := by
  decide

/-- C7 (amended): key `f` enters filter-editing mode whenever the
application is not already editing, on any screen — there is no
`screen = Compute` precondition, and `filterEditing = true` therefore
does not imply `screen = Compute`. The screen is left unchanged. -/
theorem C7_filter_entry_any_screen (m : Model) (hf : m.filtering = false) :
    update m (.key (.char 'f')) = ({ m with filtering := true }, none) := by
  simp [update, hf]

/-- C7 witness: the initial state. -/
theorem C7_filter_entry_any_screen_witness :
    (initialModel cfg0).filtering = false ∧
    update (initialModel cfg0) (.key (.char 'f')) =
      ({ initialModel cfg0 with filtering := true }, none) :=
  ⟨rfl, C7_filter_entry_any_screen (initialModel cfg0) rfl⟩

/-- C9 counterexample: in the reachable filter-editing state obtained
by pressing `f` from the initial state, the `q` key does not produce
the quit command — it is forwarded to the filter text input, whose
buffer becomes `"q"`. -/
theorem C9_counterexample :
    (run (initialModel cfg0) [Msg.key (Key.char 'f')]).filtering = true ∧
    (update (run (initialModel cfg0) [Msg.key (Key.char 'f')]) (Msg.key (Key.char 'q'))).2 = none ∧
    (update (run (initialModel cfg0) [Msg.key (Key.char 'f')])
      (Msg.key (Key.char 'q'))).1.filterInput.value = "q" := by
  decide

/-- C9 (amended): in every state that is not in filter-editing mode —
on any screen and with any load status — the `q` key or the interrupt
(ctrl+c) makes the reducer return the quit command, terminating the
application with exit code 0; while filter-editing, these keys are
forwarded to the filter input instead. -/
theorem C9_quit_outside_editing (m : Model) (hf : m.filtering = false) :
    update m (.key (.char 'q')) = (m, some Cmd.quit) ∧
    update m (.key .ctrlC) = (m, some Cmd.quit) := by
  constructor <;> simp [update, hf]

/-- C9 witness: the initial state. -/
theorem C9_quit_outside_editing_witness :
    (initialModel cfg0).filtering = false ∧
    update (initialModel cfg0) (.key (.char 'q')) = (initialModel cfg0, some Cmd.quit) ∧
    update (initialModel cfg0) (.key Key.ctrlC) = (initialModel cfg0, some Cmd.quit) := by
  have h := C9_quit_outside_editing (initialModel cfg0) rfl
  exact ⟨rfl, h.1, h.2⟩

/-! ### Filter-editing traces -/

/-- While filter-editing, character keystrokes only touch the text
input: the editing flag stays set and the committed filter text is
untouched. -/
theorem filter_unchanged_while_editing (m : Model) (hf : m.filtering = true)
    (cs : List Char) :
    (run m (cs.map fun c => Msg.key (Key.char c))).filtering = true ∧
    (run m (cs.map fun c => Msg.key (Key.char c))).filter = m.filter := by
  induction cs generalizing m with
  | nil => exact ⟨hf, rfl⟩
  | cons c rest ih =>
    have hstep : step m (.key (.char c)) =
        { m with filterInput := m.filterInput.update (.key (.char c)) } := by
      simp [step, update, hf]
    have h := ih { m with filterInput := m.filterInput.update (.key (.char c)) } hf
    constructor
    · show (run (step m (.key (.char c))) (rest.map fun c => Msg.key (Key.char c))).filtering = true
      rw [hstep]
      exact h.1
    · show (run (step m (.key (.char c))) (rest.map fun c => Msg.key (Key.char c))).filter = m.filter
      rw [hstep]
      exact h.2

/-- C8: from any state not yet editing, entering filter-editing with
`f`, typing any characters, and pressing `esc` exits filter-editing
with the committed filter text exactly as it was before entry; and from
any editing state, `esc` alone exits editing changing nothing but the
editing flag (in particular the committed filter text). -/
theorem C8_esc_discards_edit (m : Model) (hf : m.filtering = false) (cs : List Char) :
    (∀ m' : Model, m'.filtering = true →
      update m' (.key .esc) = ({ m' with filtering := false }, none)) ∧
    (run m (Msg.key (Key.char 'f') :: (cs.map fun c => Msg.key (Key.char c)) ++
      [Msg.key Key.esc])).filtering = false ∧
    (run m (Msg.key (Key.char 'f') :: (cs.map fun c => Msg.key (Key.char c)) ++
      [Msg.key Key.esc])).filter = m.filter := by
  have hstepf : step m (.key (.char 'f')) = { m with filtering := true } := by
    simp [step, update, hf]
  have hmid := filter_unchanged_while_editing { m with filtering := true } rfl cs
  have hesc : step (run { m with filtering := true } (cs.map fun c => Msg.key (Key.char c)))
      (.key .esc) =
      { run { m with filtering := true } (cs.map fun c => Msg.key (Key.char c)) with
          filtering := false } := by
    simp [step, update, hmid.1]
  have hsplit : run m (Msg.key (Key.char 'f') :: (cs.map fun c => Msg.key (Key.char c)) ++
      [Msg.key Key.esc]) =
      step (run (step m (.key (.char 'f'))) (cs.map fun c => Msg.key (Key.char c)))
        (.key .esc) := by
    show run (step m (.key (.char 'f')))
      ((cs.map fun c => Msg.key (Key.char c)) ++ [Msg.key Key.esc]) = _
    rw [run, List.foldl_append]
    rfl
  have hmain : (run m (Msg.key (Key.char 'f') :: (cs.map fun c => Msg.key (Key.char c)) ++
        [Msg.key Key.esc])).filtering = false ∧
      (run m (Msg.key (Key.char 'f') :: (cs.map fun c => Msg.key (Key.char c)) ++
        [Msg.key Key.esc])).filter = m.filter := by
    rw [hsplit, hstepf, hesc]
    exact ⟨rfl, hmid.2⟩
  exact ⟨fun m' hm' => by simp [update, hm'], hmain.1, hmain.2⟩

/-- C8 witness: typing `E`, `n`, `v` after `f` and pressing `esc`
leaves the empty committed filter of the initial state intact. -/
theorem C8_esc_discards_edit_witness :
    (initialModel cfg0).filtering = false ∧
    (run (initialModel cfg0) (Msg.key (Key.char 'f') ::
      (['E', 'n', 'v'].map fun c => Msg.key (Key.char c)) ++
      [Msg.key Key.esc])).filtering = false ∧
    (run (initialModel cfg0) (Msg.key (Key.char 'f') ::
      (['E', 'n', 'v'].map fun c => Msg.key (Key.char c)) ++
      [Msg.key Key.esc])).filter = (initialModel cfg0).filter := by
  have h := C8_esc_discards_edit (initialModel cfg0) rfl ['E', 'n', 'v']
  exact ⟨rfl, h.2.1, h.2.2⟩

/-! ### Character-limit invariant -/

/-- The text input preserves its character limit, and its buffer never
grows past a reached limit of 20. -/
theorem textInput_update_length (ti : TextInput) (hc : ti.charLimit = 20)
    (hv : ti.value.length ≤ 20) (msg : Msg) :
    (ti.update msg).charLimit = 20 ∧ (ti.update msg).value.length ≤ 20 := by
  cases msg with
  | clientReady => exact ⟨hc, hv⟩
  | instancesLoaded insts e => exact ⟨hc, hv⟩
  | windowSize w h => exact ⟨hc, hv⟩
  | key k =>
    cases k with
    | enter => exact ⟨hc, hv⟩
    | esc => exact ⟨hc, hv⟩
    | tab => exact ⟨hc, hv⟩
    | ctrlC => exact ⟨hc, hv⟩
    | backspace =>
      refine ⟨hc, ?_⟩
      show (String.mk ti.value.data.dropLast).length ≤ 20
      rw [String.length_mk, List.length_dropLast]
      have hd : ti.value.data.length = ti.value.length := rfl
      omega
    | char c =>
      rw [show ti.update (.key (.char c)) =
        (if 0 < ti.charLimit ∧ ti.charLimit ≤ ti.value.length then ti
         else { ti with value := ti.value.push c }) from rfl]
      split
      · exact ⟨hc, hv⟩
      · next hcond =>
        have hlt : ti.value.length < 20 := by
          rcases Nat.lt_or_ge ti.value.length 20 with hl | hl
          · exact hl
          · exact absurd ⟨by rw [hc]; omega, by rw [hc]; exact hl⟩ hcond
        refine ⟨hc, ?_⟩
        show (ti.value.push c).length ≤ 20
        rw [String.length_push]
        omega

/-- The inductive invariant behind C10: the limit stays 20 and both the
in-progress buffer and the committed filter stay within it. -/
def BufBounded (m : Model) : Prop :=
  m.filterInput.charLimit = 20 ∧
  m.filterInput.value.length ≤ 20 ∧
  m.filter.length ≤ 20

theorem bufBounded_step (m : Model) (h : BufBounded m) (msg : Msg) :
    BufBounded (step m msg) := by
  obtain ⟨hc, hv, hfl⟩ := h
  unfold BufBounded step update
  by_cases hfil : m.filtering = true
  · rw [if_pos hfil]
    split
    · exact ⟨hc, hv, hv⟩
    · exact ⟨hc, hv, hfl⟩
    · exact ⟨(textInput_update_length m.filterInput hc hv _).1,
             (textInput_update_length m.filterInput hc hv _).2, hfl⟩
  · rw [if_neg hfil]
    split
    all_goals try exact ⟨hc, hv, hfl⟩
    · unfold cycleRegion
      split
      · exact ⟨hc, hv, hfl⟩
      · exact ⟨hc, hv, hfl⟩
    · split
      · exact ⟨hc, hv, hfl⟩
      · exact ⟨hc, hv, hfl⟩

theorem bufBounded_run (m : Model) (h : BufBounded m) (msgs : List Msg) :
    BufBounded (run m msgs) := by
  induction msgs generalizing m with
  | nil => exact h
  | cons x xs ih => exact ih (step m x) (bufBounded_step m h x)

/-- C10: in every reachable state the filter input buffer holds at most
20 characters and the committed filter text is at most 20 characters;
once the buffer has reached 20 characters, a further character
keystroke is rejected by the input. -/
theorem C10_char_limit (cfg : Config) (m : Model) (h : Reachable cfg m) :
    m.filterInput.value.length ≤ 20 ∧
    m.filter.length ≤ 20 ∧
    ∀ c : Char, 20 ≤ m.filterInput.value.length →
      (m.filterInput.update (.key (.char c))).value = m.filterInput.value := by
  obtain ⟨msgs, hrun⟩ := h
  have hb : BufBounded m := by
    rw [← hrun]
    exact bufBounded_run (initialModel cfg) ⟨rfl, by simp [initialModel], by simp [initialModel]⟩ msgs
  obtain ⟨hc, hv, hfl⟩ := hb
  refine ⟨hv, hfl, fun c hge => ?_⟩
  have : m.filterInput.update (.key (.char c)) = m.filterInput := by
    simp only [TextInput.update]
    rw [if_pos ⟨by rw [hc]; omega, by rw [hc]; exact hge⟩]
  rw [this]

/-- C10 witness: the initial state is reachable and satisfies the
bounds. -/
theorem C10_char_limit_witness :
    Reachable cfg0 (initialModel cfg0) ∧
    (initialModel cfg0).filterInput.value.length ≤ 20 ∧
    (initialModel cfg0).filter.length ≤ 20 := by
  have h := C10_char_limit cfg0 (initialModel cfg0) ⟨[], rfl⟩
  exact ⟨⟨[], rfl⟩, h.1, h.2.1⟩

end LazyAws
